import Mathlib

/-!
Shallow embedding of the veea camera firmware's capture-encode-transport
pipeline (device/firmware/src/main.c and the BMP revision), together with
theorems checking the design document's claims against it.

Bytes are modelled as `Nat` values below 256; byte streams as `List Nat`.
The file-sink writes of the C code are modelled by returning the written
byte list; a write that C performs with `fs_write_all` becomes a list
append.  `uint32` arithmetic stays in `Nat`: every place where the C code
truncates to a byte emits an explicit `% 256`.
-/

set_option maxRecDepth 20000

/-- Read one byte of frame memory (`uint8_t` load): out-of-range reads give 0,
in-range values are reduced mod 256 to reflect the `uint8_t` type. -/
def byteAt (l : List Nat) (i : Nat) : Nat := l.getD i 0 % 256

/-! ## ChecksumEngine (crc32_init / crc32_update / crc32_finalize / adler32_update) -/

def crc32_init : Nat := 0xFFFFFFFF

/-- One round of the table derivation: conditional shift-XOR with the
reflected polynomial 0xEDB88320. -/
def crc32_table_round (c : Nat) : Nat :=
  if c &&& 1 = 1 then 0xEDB88320 ^^^ (c >>> 1) else c >>> 1

/-- Entry `i` of the 256-entry CRC table: 8 rounds of `crc32_table_round`. -/
def crc32_table (i : Nat) : Nat := crc32_table_round^[8] i

def crc32_update (crc : Nat) (data : List Nat) : Nat :=
  data.foldl (fun c b => crc32_table ((c ^^^ b) &&& 0xFF) ^^^ (c >>> 8)) crc

def crc32_finalize (crc : Nat) : Nat := crc ^^^ 0xFFFFFFFF

/-- Whole-buffer CRC32 as the firmware composes it. -/
def crc32 (data : List Nat) : Nat := crc32_finalize (crc32_update crc32_init data)

def adler32_update (adler : Nat) (data : List Nat) : Nat :=
  let st := data.foldl
    (fun (st : Nat × Nat) d =>
      let a := (st.1 + d) % 65521
      (a, (st.2 + a) % 65521))
    (adler &&& 0xFFFF, (adler >>> 16) &&& 0xFFFF)
  (st.2 <<< 16) ||| st.1

example : crc32 [] = 0 := by decide
example : crc32 [97] = 0xE8B7BE43 := by decide
example : crc32 [49, 50, 51, 52, 53, 54, 55, 56, 57] = 0xCBF43926 := by decide
example : adler32_update 1 [] = 1 := by decide
example : adler32_update 1 [97] = 0x00620062 := by decide
example : adler32_update 1 [49, 50, 51, 52, 53, 54, 55, 56, 57] = 0x091E01DE := by decide

/-! ## ContainerEncoder, checksum-framed variant
(png_write_u32_be / png_write_chunk / zlib_start_block / zlib_write_data /
png_write_rgb565).  Each writer returns the bytes it would push through
`fs_write_all`. -/

/-- `png_write_u32_be`: big-endian u32, one `(uint8_t)` truncation per byte. -/
def png_write_u32_be (value : Nat) : List Nat :=
  [(value >>> 24) % 256, (value >>> 16) % 256, (value >>> 8) % 256, value % 256]

/-- `png_write_chunk`: length(4,BE), 4-byte type tag, payload, CRC32 of
tag-then-payload.  (The C code skips the payload write and CRC update when
`len` is zero; appending and folding the empty list is the same.) -/
def png_write_chunk (type data : List Nat) : List Nat :=
  png_write_u32_be data.length ++ type ++ data ++
    png_write_u32_be (crc32_finalize (crc32_update (crc32_update crc32_init type) data))

/-- `struct zlib_writer` without the file handle: the output is returned. -/
structure zlib_writer where
  remaining : Nat
  block_remaining : Nat
  adler : Nat
  crc : Nat
deriving Repr, DecidableEq

/-- `PNG_BLOCK_SIZE` -/
def PNG_BLOCK_SIZE : Nat := 65535

/-- `zlib_start_block`: opens a stored block of
`min (remaining, PNG_BLOCK_SIZE)` bytes, final flag when the whole rest
fits, 16-bit length and its complement little-endian. -/
def zlib_start_block (w : zlib_writer) : zlib_writer × List Nat :=
  if w.remaining = 0 then (w, [])
  else
    let block_len := if w.remaining > PNG_BLOCK_SIZE then PNG_BLOCK_SIZE else w.remaining
    let header := if w.remaining = block_len then 1 else 0
    let nlen := 0xFFFF ^^^ block_len
    let block_hdr : List Nat :=
      [header, block_len &&& 0xFF, (block_len >>> 8) &&& 0xFF,
       nlen &&& 0xFF, (nlen >>> 8) &&& 0xFF]
    ({ w with crc := crc32_update w.crc block_hdr, block_remaining := block_len },
     block_hdr)

/-- `zlib_write_data`: the `while (len > 0)` loop, fuel-indexed.  One fuel
unit per loop iteration; `none` models the loop not finishing within the
given fuel. -/
def zlib_write_data (fuel : Nat) (w : zlib_writer) (data : List Nat) :
    Option (zlib_writer × List Nat) :=
  match data with
  | [] => some (w, [])
  | _ :: _ =>
    match fuel with
    | 0 => none
    | fuel + 1 =>
      let st := if w.block_remaining = 0 then zlib_start_block w else (w, [])
      let w1 := st.1
      let hdr := st.2
      let chunk := min data.length w1.block_remaining
      let part := data.take chunk
      let w2 : zlib_writer :=
        { remaining := w1.remaining - chunk,
          block_remaining := w1.block_remaining - chunk,
          adler := adler32_update w1.adler part,
          crc := crc32_update w1.crc part }
      match zlib_write_data fuel w2 (data.drop chunk) with
      | none => none
      | some (w3, out) => some (w3, hdr ++ part ++ out)

/-! ColorConverter, RGB565 path (the per-pixel body of the row loop in
`png_write_rgb565` / `bmp_write_rgb565`). -/

/-- Unpack one big-endian RGB565 pixel (high byte first) into 5/6/5 fields
and expand each to 8 bits by bit replication, as in the row loops. -/
def rgb565_to_rgb888 (hi lo : Nat) : Nat × Nat × Nat :=
  let pixel := (hi % 256) <<< 8 ||| (lo % 256)
  let r := (pixel >>> 11) &&& 0x1F
  let g := (pixel >>> 5) &&& 0x3F
  let b := pixel &&& 0x1F
  ((r <<< 3) ||| (r >>> 2), (g <<< 2) ||| (g >>> 4), (b <<< 3) ||| (b >>> 2))

/-- One converted scanline of `png_write_rgb565`: filter byte 0 followed by
`width` RGB triples read from the row memory. -/
def rgb565_row (row : List Nat) (width : Nat) : List Nat :=
  0 :: (List.range width).flatMap (fun x =>
    let p := rgb565_to_rgb888 (row.getD (2 * x) 0) (row.getD (2 * x + 1) 0)
    [p.1, p.2.1, p.2.2])

/-- The per-row `zlib_write_data` calls of the encoder's `for (y ...)` loop. -/
def png_encode_rows (zw : zlib_writer) (rows : List (List Nat)) :
    Option (zlib_writer × List Nat) :=
  match rows with
  | [] => some (zw, [])
  | r :: rs =>
    match zlib_write_data r.length zw r with
    | none => none
    | some (zw1, out1) =>
      match png_encode_rows zw1 rs with
      | none => none
      | some (zw2, out2) => some (zw2, out1 ++ out2)

def pngSignature : List Nat := [0x89, 0x50, 0x4E, 0x47, 0x0D, 0x0A, 0x1A, 0x0A]

def ihdrType : List Nat := [0x49, 0x48, 0x44, 0x52]
def idatType : List Nat := [0x49, 0x44, 0x41, 0x54]
def iendType : List Nat := [0x49, 0x45, 0x4E, 0x44]

/-- The 13-byte IHDR payload: width and height big-endian, bit depth 8,
color type 2 (truecolor), compression 0, filter 0, interlace 0. -/
def png_ihdr (width height : Nat) : List Nat :=
  [(width >>> 24) % 256, (width >>> 16) % 256, (width >>> 8) % 256, width % 256,
   (height >>> 24) % 256, (height >>> 16) % 256, (height >>> 8) % 256, height % 256,
   8, 2, 0, 0, 0]

/-- `png_write_rgb565`: signature, IHDR chunk, hand-rolled IDAT chunk whose
payload is the zlib header `78 01`, the stored blocks of the filtered rows,
and the big-endian Adler32, then the IEND chunk.  Pure model of the success
path; `none` only if a per-row `zlib_write_data` would not terminate. -/
def png_write_rgb565 (rgb565 : List Nat) (width height pitch : Nat) :
    Option (List Nat) :=
  let row_size := width * 3 + 1
  let data_len := row_size * height
  let block_count := (data_len + PNG_BLOCK_SIZE - 1) / PNG_BLOCK_SIZE
  let zlib_len := 2 + data_len + block_count * 5 + 4
  let zhdr : List Nat := [0x78, 0x01]
  let zw0 : zlib_writer :=
    { remaining := data_len, block_remaining := 0, adler := 1,
      crc := crc32_update (crc32_update crc32_init idatType) zhdr }
  let rows := (List.range height).map (fun y => rgb565_row (rgb565.drop (y * pitch)) width)
  match png_encode_rows zw0 rows with
  | none => none
  | some (zw, body) =>
    let adler_be := png_write_u32_be zw.adler
    some (pngSignature ++ png_write_chunk ihdrType (png_ihdr width height) ++
          png_write_u32_be zlib_len ++ idatType ++ zhdr ++ body ++ adler_be ++
          png_write_u32_be (crc32_finalize (crc32_update zw.crc adler_be)) ++
          png_write_chunk iendType [])

/-! ## ColorConverter, YUYV path (`clamp_u8` and the row loop of
`png_write_yuyv`). -/

/-- `clamp_u8` -/
def clamp_u8 (value : Int) : Nat :=
  if value < 0 then 0 else if value > 255 then 255 else value.toNat

/-- The BT.601-style integer transform applied to one luma sample and its
chroma pair, exactly the arithmetic of the loop body (`>>> 8` is the
arithmetic shift of a C `int`). -/
def yuv_to_rgb (y u v : Nat) : List Nat :=
  let c : Int := (y : Int) - 16
  let d : Int := (u : Int) - 128
  let e : Int := (v : Int) - 128
  [clamp_u8 ((298 * c + 409 * e + 128) >>> 8),
   clamp_u8 ((298 * c - 100 * d - 208 * e + 128) >>> 8),
   clamp_u8 ((298 * c + 516 * d + 128) >>> 8)]

/-- The `for (x = 0; x < width; x += 2)` loop of `png_write_yuyv`: each
iteration reads the 4-byte group at `x*2`, always emits the first pixel,
and emits the second only when `x + 1 < width`. -/
def png_write_yuyv_pairs (row : List Nat) (width x : Nat) : List Nat :=
  if x < width then
    let y0 := byteAt row (x * 2)
    let u := byteAt row (x * 2 + 1)
    let y1 := byteAt row (x * 2 + 2)
    let v := byteAt row (x * 2 + 3)
    yuv_to_rgb y0 u v ++
      (if x + 1 < width then yuv_to_rgb y1 u v else []) ++
      png_write_yuyv_pairs row width (x + 2)
  else []
termination_by width - x
decreasing_by omega

/-- One converted scanline of `png_write_yuyv`: filter byte 0 then the loop. -/
def png_write_yuyv_row (row : List Nat) (width : Nat) : List Nat :=
  0 :: png_write_yuyv_pairs row width 0

/-! ## ContainerEncoder, flat variant (`bmp_write_rgb565` from the BMP
firmware revision). -/

/-- Little-endian u32 field, one `(uint8_t)` truncation per byte. -/
def u32le (value : Nat) : List Nat :=
  [value % 256, (value >>> 8) % 256, (value >>> 16) % 256, (value >>> 24) % 256]

/-- The 54-byte header `bmp_write_rgb565` builds: `memset` to zero, then the
BM magic, file size, pixel-data offset 54, DIB size 40, width, height,
planes 1, bits-per-pixel 24, compression 0, pixel-data size, and the four
remaining zeroed DIB fields. -/
def bmp_header (width height : Nat) : List Nat :=
  let row_size := (width * 3 + 3) / 4 * 4
  let pixel_data_size := row_size * height
  let file_size := 54 + pixel_data_size
  [0x42, 0x4D] ++ u32le file_size ++ [0, 0, 0, 0] ++ [54, 0, 0, 0] ++
  [40, 0, 0, 0] ++ u32le width ++ u32le height ++ [1, 0] ++ [24, 0] ++
  [0, 0, 0, 0] ++ u32le pixel_data_size ++ List.replicate 16 0

/-- One output row of `bmp_write_rgb565`: `row_size` bytes, zeroed, the
first `width*3` overwritten with B,G,R expansions of the RGB565 pixels. -/
def bmp_row (src : List Nat) (width row_size : Nat) : List Nat :=
  (List.range width).flatMap (fun x =>
    let p := rgb565_to_rgb888 (src.getD (2 * x) 0) (src.getD (2 * x + 1) 0)
    [p.2.2, p.2.1, p.1]) ++
  List.replicate (row_size - width * 3) 0

/-- `bmp_write_rgb565`: the 54-byte header followed by the scanlines in
bottom-to-top order (`for (y = height - 1; y >= 0; y--)`). -/
def bmp_write_rgb565 (rgb565 : List Nat) (width height pitch : Nat) : List Nat :=
  let row_size := (width * 3 + 3) / 4 * 4
  bmp_header width height ++
  (List.range height).reverse.flatMap
    (fun y => bmp_row (rgb565.drop (y * pitch)) width row_size)

/-! ## TransferController (BLE image transfer path). -/

/-- `image_data_ccc_changed`: the data-channel subscription flag after a CCC
write (`BT_GATT_CCC_NOTIFY = 1`). -/
def image_data_ccc_changed (value : Nat) : Bool := value = 1

/-- `image_meta_ccc_changed`: the metadata-channel subscription flag after a
CCC write. -/
def image_meta_ccc_changed (value : Nat) : Bool := value = 1

/-- One captured raw frame as handed back by `capture_for_ble`. -/
structure Frame where
  bytes : List Nat
  width : Nat
  height : Nat
deriving Repr, DecidableEq

/-- `capture_for_ble` (success path): copies `bytesused` raw RGB565 bytes
out of the dequeued video buffer and reports that count as the size. -/
def capture_for_ble (f : Frame) : List Nat × Nat × Nat × Nat :=
  (f.bytes, f.bytes.length, f.width, f.height)

/-- `send_image_metadata`: the fixed 12-byte record width(2,LE) height(2,LE)
size(4,LE) and the ASCII tag R,G,B,5. -/
def send_image_metadata (width height size : Nat) : List Nat :=
  [width % 256, (width >>> 8) % 256, height % 256, (height >>> 8) % 256,
   size % 256, (size >>> 8) % 256, (size >>> 16) % 256, (size >>> 24) % 256,
   0x52, 0x47, 0x42, 0x35]

/-- The chunk-size computation of `send_image_data`:
`uint16_t chunk_size = mtu - 3` (wrapping 16-bit subtraction), capped at
the 244-byte hard limit. -/
def ble_chunk_size (mtu : Nat) : Nat :=
  let cs := (mtu + 65536 - 3) % 65536
  if cs > 244 then 244 else cs

/-- The `while (offset < size)` send loop of `send_image_data`,
fuel-indexed; returns the chunk payloads in order. -/
def send_image_data_loop (fuel chunk_size offset size : Nat) (data : List Nat) :
    Option (List (List Nat)) :=
  if offset < size then
    match fuel with
    | 0 => none
    | fuel + 1 =>
      let len := if size - offset > chunk_size then chunk_size else size - offset
      match send_image_data_loop fuel chunk_size (offset + len) size data with
      | none => none
      | some rest => some (((data.drop offset).take len) :: rest)
  else some []

/-- `send_image_data`: computes the chunk size once from the MTU, then
streams the buffer.  `data.length` loop iterations always suffice when the
chunk size is positive. -/
def send_image_data (mtu : Nat) (data : List Nat) : Option (List (List Nat)) :=
  send_image_data_loop data.length (ble_chunk_size mtu) 0 data.length data

/-- The peer-visible session state the work handler reads:
`current_conn != NULL`, `image_data_notify_enabled`,
`image_meta_notify_enabled`. -/
structure BleState where
  connActive : Bool
  dataNotify : Bool
  metaNotify : Bool
deriving Repr, DecidableEq

inductive CaptureOutcome where
  | noSubscriber
  | captureFailed
  | sendFailed
  | done
deriving Repr, DecidableEq

/-- Observable effects of one `capture_work_handler` run: how many times
`capture_for_ble` ran, the metadata notification (if one was sent), the
image-data chunks sent, and which exit path was taken. -/
structure CaptureRun where
  captures : Nat
  meta : Option (List Nat)
  chunks : List (List Nat)
  outcome : CaptureOutcome
deriving Repr, DecidableEq

/-- `capture_work_handler`: guard `!current_conn || !image_data_notify_enabled`
first (returning without capturing), then capture, then metadata, then the
data chunks.  `captureResult` stands for the outcome of `capture_for_ble`'s
camera interaction. -/
def capture_work_handler (s : BleState) (captureResult : Option Frame)
    (mtu : Nat) : CaptureRun :=
  if !s.connActive || !s.dataNotify then
    { captures := 0, meta := none, chunks := [], outcome := .noSubscriber }
  else
    match captureResult with
    | none => { captures := 1, meta := none, chunks := [], outcome := .captureFailed }
    | some f =>
      let r := capture_for_ble f
      let meta := send_image_metadata r.2.2.1 r.2.2.2 r.2.1
      match send_image_data mtu r.1 with
      | none => { captures := 1, meta := some meta, chunks := [], outcome := .sendFailed }
      | some chunks => { captures := 1, meta := some meta, chunks := chunks, outcome := .done }

/-! ## Reference definitions taken from the specification's wording
(used on the right-hand side of refinement statements). -/

/-- Spec 4.1: Adler32 reference loop, `a = (a + byte) mod 65521`,
`b = (b + a) mod 65521`, starting from `a = 1`, `b = 0`. -/
def adler32_ref_loop : Nat → Nat → List Nat → Nat × Nat
  | a, b, [] => (a, b)
  | a, b, d :: ds => adler32_ref_loop ((a + d) % 65521) ((b + (a + d) % 65521) % 65521) ds

/-- Spec 4.1: the packed Adler32 reference value `(b <<< 16) ||| a`. -/
def adler32_ref (data : List Nat) : Nat :=
  ((adler32_ref_loop 1 0 data).2 <<< 16) ||| (adler32_ref_loop 1 0 data).1

/-- Spec 4.2: 5-bit channel expansion `(v <<< 3) ||| (v >>> 2)`. -/
def expand5 (v : Nat) : Nat := (v <<< 3) ||| (v >>> 2)

/-- Spec 4.2: 6-bit channel expansion `(v <<< 2) ||| (v >>> 4)`. -/
def expand6 (v : Nat) : Nat := (v <<< 2) ||| (v >>> 4)

/-- Spec 4.2: the BT.601-style per-sample transform written out from the
spec's formulas, clamped to [0, 255]. -/
def yuv_to_rgb_spec (y u v : Nat) : List Nat :=
  [clamp_u8 ((298 * ((y : Int) - 16) + 409 * ((v : Int) - 128) + 128) >>> 8),
   clamp_u8 ((298 * ((y : Int) - 16) - 100 * ((u : Int) - 128) - 208 * ((v : Int) - 128) + 128) >>> 8),
   clamp_u8 ((298 * ((y : Int) - 16) + 516 * ((u : Int) - 128) + 128) >>> 8)]

/-- Spec 4.2: the whole YUYV row described per luma sample: sample `i` uses
luma byte `2*i` and the chroma pair of its group `i / 2`. -/
def yuyv_row_spec (row : List Nat) (width : Nat) : List Nat :=
  (List.range width).flatMap (fun i =>
    yuv_to_rgb_spec (byteAt row (2 * i)) (byteAt row (4 * (i / 2) + 1))
      (byteAt row (4 * (i / 2) + 3)))

/-! ## Generic helper lemmas -/

lemma crc32_update_append (c : Nat) (xs ys : List Nat) :
    crc32_update c (xs ++ ys) = crc32_update (crc32_update c xs) ys :=
  List.foldl_append _ _ _ _

lemma length_flatMap_const {α : Type} (f : α → List Nat) (k : Nat)
    (h : ∀ a, (f a).length = k) (l : List α) :
    (l.flatMap f).length = k * l.length := by
  induction l with
  | nil => simp
  | cons a as ih => simp [List.flatMap_cons, h, ih, Nat.mul_succ]; omega

lemma rgb565_row_length (row : List Nat) (width : Nat) :
    (rgb565_row row width).length = width * 3 + 1 := by
  simp only [rgb565_row, List.length_cons]
  rw [length_flatMap_const
    (fun x =>
      let p := rgb565_to_rgb888 (row.getD (2 * x) 0) (row.getD (2 * x + 1) 0)
      [p.1, p.2.1, p.2.2]) 3 (fun x => rfl)]
  simp [List.length_range]
  omega

/-! ## Claim C4: the checksum engines -/

lemma adler32_foldl_eq_ref (data : List Nat) :
    ∀ a b : Nat,
      data.foldl
        (fun (st : Nat × Nat) d =>
          let x := (st.1 + d) % 65521
          (x, (st.2 + x) % 65521)) (a, b) =
      adler32_ref_loop a b data := by
  induction data with
  | nil => intro a b; rfl
  | cons d ds ih => intro a b; simp only [List.foldl_cons, adler32_ref_loop]; exact ih _ _

/-- C4: the two checksum functions equal their reference definitions:
CRC32 starts from all-ones, steps through the reflected 0xEDB88320 table,
and inverts at the end; Adler32 runs the `a`/`b` recurrences mod 65521 from
`a = 1`, `b = 0` and packs `(b <<< 16) ||| a`; both reproduce the standard
reference values on the empty input, a single byte, and ASCII "123456789". -/
theorem checksum_engines_match_reference :
    crc32_init = 0xFFFFFFFF ∧
    (∀ c, crc32_finalize c = c ^^^ 0xFFFFFFFF) ∧
    (∀ c b, crc32_update c [b] = crc32_table ((c ^^^ b) &&& 0xFF) ^^^ (c >>> 8)) ∧
    crc32_table 0 = 0 ∧ crc32_table 1 = 0x77073096 ∧ crc32_table 255 = 0x2D02EF8D ∧
    (∀ data, adler32_update 1 data = adler32_ref data) ∧
    crc32 [] = 0 ∧
    crc32 [97] = 0xE8B7BE43 ∧
    crc32 [49, 50, 51, 52, 53, 54, 55, 56, 57] = 0xCBF43926 ∧
    adler32_update 1 [] = 1 ∧
    adler32_update 1 [97] = 0x00620062 ∧
    adler32_update 1 [49, 50, 51, 52, 53, 54, 55, 56, 57] = 0x091E01DE := by
  refine ⟨rfl, fun c => rfl, fun c b => rfl, by decide, by decide, by decide,
    fun data => ?_, by decide, by decide, by decide, by decide, by decide, by decide⟩
  have h := adler32_foldl_eq_ref data ((1 : Nat) &&& 0xFFFF) (((1 : Nat) >>> 16) &&& 0xFFFF)
  simp only [adler32_update, adler32_ref]
  rw [h]
  norm_num [Nat.shiftRight_eq_div_pow]

/-! ## Stored-block accounting for the zlib writer -/

/-- Number of stored-block headers emitted once `w` payload bytes have
passed through a writer that started fresh: `ceil (w / 65535)`. -/
def zblocks (w : Nat) : Nat := (w + 65534) / 65535

lemma zlib_start_block_spec (w : zlib_writer) (h : ¬ w.remaining = 0) :
    (zlib_start_block w).1.remaining = w.remaining ∧
    (zlib_start_block w).1.adler = w.adler ∧
    (zlib_start_block w).1.block_remaining = min w.remaining 65535 ∧
    (zlib_start_block w).1.crc = crc32_update w.crc (zlib_start_block w).2 ∧
    (zlib_start_block w).2.length = 5 := by
  refine ⟨?_, ?_, ?_, ?_, ?_⟩
  · simp [zlib_start_block, if_neg h]
  · simp [zlib_start_block, if_neg h]
  · simp only [zlib_start_block, if_neg h, PNG_BLOCK_SIZE]
    split <;> omega
  · simp [zlib_start_block, if_neg h]
  · simp [zlib_start_block, if_neg h]

/-- One full run of `zlib_write_data` from a state reachable after `W` of
`R` total payload bytes: it succeeds with `data.length` fuel, consumes the
data, keeps the CRC an exact fold over the bytes it emitted, and emits
exactly `data.length` payload bytes plus 5 per newly opened stored block. -/
lemma zlib_write_data_run (R : Nat) :
    ∀ (fuel : Nat) (data : List Nat) (W : Nat) (w : zlib_writer),
      w.remaining = R - W →
      w.block_remaining = min (R - W) ((65535 - W % 65535) % 65535) →
      W + data.length ≤ R →
      data.length ≤ fuel →
      ∃ w' out,
        zlib_write_data fuel w data = some (w', out) ∧
        w'.remaining = R - (W + data.length) ∧
        w'.block_remaining =
          min (R - (W + data.length)) ((65535 - (W + data.length) % 65535) % 65535) ∧
        w'.crc = crc32_update w.crc out ∧
        out.length = data.length + 5 * (zblocks (W + data.length) - zblocks W) := by
  intro fuel
  induction fuel with
  | zero =>
    intro data W w h1 h2 h3 h4
    have hnil : data = [] := List.eq_nil_of_length_eq_zero (Nat.le_zero.mp h4)
    subst hnil
    exact ⟨w, [], rfl, by simpa using h1, by simpa using h2, rfl, by simp⟩
  | succ f ih =>
    intro data W w h1 h2 h3 h4
    cases data with
    | nil =>
      exact ⟨w, [], rfl, by simpa using h1, by simpa using h2, rfl, by simp⟩
    | cons d ds =>
      simp only [List.length_cons] at h3 h4
      by_cases hbr : w.block_remaining = 0
      · -- a new stored block is opened
        have hrem : ¬ w.remaining = 0 := by rw [h1]; omega
        have hm0 : W % 65535 = 0 := by
          rw [h2] at hbr
          omega
        obtain ⟨hs1, hs2, hs3, hs4, hs5⟩ := zlib_start_block_spec w hrem
        simp only [zlib_write_data, if_pos hbr, hs1, hs3, h1, List.length_cons]
        set chunk := min (ds.length + 1) (min (R - W) 65535) with hchunk
        have hch1 : 1 ≤ chunk := by omega
        have hch2 : chunk ≤ ds.length + 1 := by omega
        have hch3 : chunk ≤ 65535 := by omega
        have hch4 : chunk ≤ R - W := by omega
        obtain ⟨w', out', heq, hw1, hw2, hw3, hw4⟩ :=
          ih ((d :: ds).drop chunk) (W + chunk)
            { remaining := R - W - chunk,
              block_remaining := min (R - W) 65535 - chunk,
              adler := adler32_update (zlib_start_block w).1.adler ((d :: ds).take chunk),
              crc := crc32_update (zlib_start_block w).1.crc ((d :: ds).take chunk) }
            (by simp only []; omega)
            (by simp only []; omega)
            (by simp only [List.length_drop, List.length_cons]; omega)
            (by simp only [List.length_drop, List.length_cons]; omega)
        rw [heq]
        refine ⟨w', (zlib_start_block w).2 ++ (d :: ds).take chunk ++ out', rfl, ?_, ?_, ?_, ?_⟩
        · rw [hw1]; congr 1; simp only [List.length_drop, List.length_cons]; omega
        · rw [hw2]; congr 2 <;> (simp only [List.length_drop, List.length_cons]; omega)
        · rw [hw3]
          simp only [hs4, crc32_update_append, List.append_assoc]
        · have hto : ((d :: ds).take chunk).length = chunk := by
            simp only [List.length_take, List.length_cons]; omega
          simp only [List.length_append, hs5, hto, hw4, List.length_drop,
            List.length_cons, zblocks]
          omega
      · -- continue filling the current block
        have hgt : (65535 - W % 65535) % 65535 ≠ 0 ∧ 1 ≤ R - W := by
          constructor <;> [skip; omega]
          intro hz
          rw [h2, hz] at hbr
          simp at hbr
        simp only [zlib_write_data, if_neg hbr, List.length_cons]
        set chunk := min (ds.length + 1) w.block_remaining with hchunk
        have hbrv : w.block_remaining = min (R - W) ((65535 - W % 65535) % 65535) := h2
        have hch1 : 1 ≤ chunk := by omega
        have hch2 : chunk ≤ ds.length + 1 := by omega
        have hch3 : chunk ≤ (65535 - W % 65535) % 65535 := by omega
        have hch4 : chunk ≤ R - W := by omega
        obtain ⟨w', out', heq, hw1, hw2, hw3, hw4⟩ :=
          ih ((d :: ds).drop chunk) (W + chunk)
            { remaining := w.remaining - chunk,
              block_remaining := w.block_remaining - chunk,
              adler := adler32_update w.adler ((d :: ds).take chunk),
              crc := crc32_update w.crc ((d :: ds).take chunk) }
            (by simp only []; omega)
            (by simp only []; omega)
            (by simp only [List.length_drop, List.length_cons]; omega)
            (by simp only [List.length_drop, List.length_cons]; omega)
        rw [heq]
        refine ⟨w', [] ++ (d :: ds).take chunk ++ out', rfl, ?_, ?_, ?_, ?_⟩
        · rw [hw1]; congr 1; simp only [List.length_drop, List.length_cons]; omega
        · rw [hw2]; congr 2 <;> (simp only [List.length_drop, List.length_cons]; omega)
        · rw [hw3]
          simp only [crc32_update_append, List.nil_append]
        · have hto : ((d :: ds).take chunk).length = chunk := by
            simp only [List.length_take, List.length_cons]; omega
          simp only [List.length_append, hto, hw4, List.length_drop,
            List.length_cons, List.length_nil, zblocks]
          omega

/-- Chaining `zlib_write_data` over the per-row calls of the encoder's row
loop: same invariants and accounting as a single run over the
concatenation. -/
lemma png_encode_rows_run (R : Nat) :
    ∀ (rows : List (List Nat)) (W : Nat) (w : zlib_writer),
      w.remaining = R - W →
      w.block_remaining = min (R - W) ((65535 - W % 65535) % 65535) →
      W + (rows.map List.length).sum ≤ R →
      ∃ w' out,
        png_encode_rows w rows = some (w', out) ∧
        w'.remaining = R - (W + (rows.map List.length).sum) ∧
        w'.block_remaining =
          min (R - (W + (rows.map List.length).sum))
            ((65535 - (W + (rows.map List.length).sum) % 65535) % 65535) ∧
        w'.crc = crc32_update w.crc out ∧
        out.length = (rows.map List.length).sum +
          5 * (zblocks (W + (rows.map List.length).sum) - zblocks W) := by
  intro rows
  induction rows with
  | nil =>
    intro W w h1 h2 h3
    exact ⟨w, [], rfl, by simpa using h1, by simpa using h2, rfl, by simp⟩
  | cons r rs ih =>
    intro W w h1 h2 h3
    simp only [List.map_cons, List.sum_cons] at h3 ⊢
    obtain ⟨w1, out1, heq1, ha, hb, hc, hd⟩ :=
      zlib_write_data_run R r.length r W w h1 h2 (by omega) le_rfl
    obtain ⟨w2, out2, heq2, ha2, hb2, hc2, hd2⟩ := ih (W + r.length) w1 ha hb (by omega)
    refine ⟨w2, out1 ++ out2, ?_, ?_, ?_, ?_, ?_⟩
    · simp only [png_encode_rows, heq1, heq2]
    · rw [ha2]; omega
    · rw [hb2]; omega
    · rw [hc2, hc, crc32_update_append]
    · simp only [List.length_append, hd, hd2, zblocks]; omega

/-- Structure of the `png_write_rgb565` output: the encoder always succeeds,
the IDAT body consists of `data_len` filtered-row bytes plus 5 bytes per
stored block, and the running chunk CRC is a fold over the tag and the
payload bytes actually emitted. -/
lemma png_write_rgb565_spec (rgb565 : List Nat) (width height pitch : Nat) :
    ∃ (zw : zlib_writer) (body : List Nat),
      png_write_rgb565 rgb565 width height pitch =
        some (pngSignature ++ png_write_chunk ihdrType (png_ihdr width height) ++
              png_write_u32_be (2 + (width * 3 + 1) * height +
                ((width * 3 + 1) * height + 65534) / 65535 * 5 + 4) ++
              idatType ++ [0x78, 0x01] ++ body ++ png_write_u32_be zw.adler ++
              png_write_u32_be
                (crc32_finalize (crc32_update zw.crc (png_write_u32_be zw.adler))) ++
              png_write_chunk iendType []) ∧
      body.length = (width * 3 + 1) * height +
        5 * (((width * 3 + 1) * height + 65534) / 65535) ∧
      zw.crc = crc32_update crc32_init (idatType ++ (0x78 :: 0x01 :: body)) := by
  have hsum :
      (((List.range height).map
          (fun y => rgb565_row (rgb565.drop (y * pitch)) width)).map List.length).sum =
        (width * 3 + 1) * height := by
    rw [List.map_map]
    have : (List.length ∘ fun y => rgb565_row (rgb565.drop (y * pitch)) width) =
        fun _ : Nat => width * 3 + 1 := by
      funext y
      exact rgb565_row_length _ _
    rw [this, List.map_const', List.sum_replicate, List.length_range, smul_eq_mul]
    ring
  obtain ⟨w', out, heq, _, _, hcrc, hlen⟩ :=
    png_encode_rows_run ((width * 3 + 1) * height)
      ((List.range height).map (fun y => rgb565_row (rgb565.drop (y * pitch)) width)) 0
      { remaining := (width * 3 + 1) * height, block_remaining := 0, adler := 1,
        crc := crc32_update (crc32_update crc32_init idatType) [0x78, 0x01] }
      (by simp) (by simp) (by rw [Nat.zero_add, hsum])
  refine ⟨w', out, ?_, ?_, ?_⟩
  · simp only [png_write_rgb565, PNG_BLOCK_SIZE]
    rw [heq]
    have h1 : (width * 3 + 1) * height + 65535 - 1 = (width * 3 + 1) * height + 65534 := by
      omega
    rw [h1]
  · rw [hlen, hsum]
    simp only [Nat.zero_add, zblocks]
    have : (0 + 65534) / 65535 = 0 := by norm_num
    omega
  · rw [hcrc]
    simp only [crc32_update_append]
    rfl

/-! ## Claim C1: declared IDAT length vs. bytes written -/

/-- C1: for every image with `width ≥ 1` and `height ≥ 1`, with
`data_len = height * (width*3 + 1)` and `block_count = ceil (data_len / 65535)`,
the encoder declares the data chunk's length as
`wrapped_len = 2 + data_len + 5*block_count + 4`, and that declared value
equals the bytes actually written from the 2-byte compression header
through the 4-byte trailing Adler32 checksum (the stored-block region in
between holding `data_len + 5*block_count` bytes). -/
theorem idat_declared_length_matches_bytes (rgb565 : List Nat)
    (width height pitch : Nat) (hw : 1 ≤ width) (hh : 1 ≤ height) :
    ∃ body adler_be crc_be : List Nat,
      png_write_rgb565 rgb565 width height pitch =
        some (pngSignature ++ png_write_chunk ihdrType (png_ihdr width height) ++
              png_write_u32_be (2 + height * (width * 3 + 1) +
                5 * ((height * (width * 3 + 1) + 65534) / 65535) + 4) ++
              idatType ++ ([0x78, 0x01] ++ body ++ adler_be) ++ crc_be ++
              png_write_chunk iendType []) ∧
      ([0x78, 0x01] ++ body ++ adler_be).length =
        2 + height * (width * 3 + 1) +
          5 * ((height * (width * 3 + 1) + 65534) / 65535) + 4 ∧
      body.length = height * (width * 3 + 1) +
        5 * ((height * (width * 3 + 1) + 65534) / 65535) := by
  obtain ⟨zw, body, heq, hblen, hcrc⟩ := png_write_rgb565_spec rgb565 width height pitch
  have hc : (width * 3 + 1) * height = height * (width * 3 + 1) := Nat.mul_comm _ _
  have hc2 : ((width * 3 + 1) * height + 65534) / 65535 * 5 =
      5 * ((height * (width * 3 + 1) + 65534) / 65535) := by
    rw [hc, Nat.mul_comm]
  rw [hc2, hc] at heq
  rw [hc] at hblen
  refine ⟨body, png_write_u32_be zw.adler,
    png_write_u32_be (crc32_finalize (crc32_update zw.crc (png_write_u32_be zw.adler))),
    ?_, ?_, ?_⟩
  · rw [heq]
    simp only [List.append_assoc]
  · simp only [List.length_append, hblen, png_write_u32_be, List.length_cons,
      List.length_nil]
    omega
  · exact hblen

/-- Witness for C1 at a concrete 2-by-2 image. -/
theorem idat_declared_length_matches_bytes_witness :
    (∃ body adler_be crc_be : List Nat,
      png_write_rgb565 (List.replicate 16 0) 2 2 4 =
        some (pngSignature ++ png_write_chunk ihdrType (png_ihdr 2 2) ++
              png_write_u32_be (2 + 2 * (2 * 3 + 1) +
                5 * ((2 * (2 * 3 + 1) + 65534) / 65535) + 4) ++
              idatType ++ ([0x78, 0x01] ++ body ++ adler_be) ++ crc_be ++
              png_write_chunk iendType []) ∧
      ([0x78, 0x01] ++ body ++ adler_be).length =
        2 + 2 * (2 * 3 + 1) + 5 * ((2 * (2 * 3 + 1) + 65534) / 65535) + 4 ∧
      body.length = 2 * (2 * 3 + 1) + 5 * ((2 * (2 * 3 + 1) + 65534) / 65535)) ∧
    (png_write_rgb565 (List.replicate 16 0) 2 2 4).isSome = true :=
  ⟨idat_declared_length_matches_bytes (List.replicate 16 0) 2 2 4
      (by decide) (by decide),
   by decide⟩

/-! ## Claim C3: chunk framing layout and CRC coverage -/

/-- C3: every chunk the encoder emits has the layout
`length(4,BE) | type(4) | payload | crc32(4,BE)` with the declared length
equal to the payload bytes actually written and the CRC computed over
exactly the type tag followed by the payload, never over the length field:
first for `png_write_chunk` (used for the metadata and terminator chunks),
then for the hand-rolled data chunk inside `png_write_rgb565`. -/
theorem chunk_layout_and_crc_coverage :
    (∀ type data : List Nat,
      png_write_chunk type data =
        png_write_u32_be data.length ++ type ++ data ++
          png_write_u32_be (crc32_finalize (crc32_update crc32_init (type ++ data)))) ∧
    (∀ (rgb565 : List Nat) (width height pitch : Nat),
      ∃ payload : List Nat,
        png_write_rgb565 rgb565 width height pitch =
          some (pngSignature ++ png_write_chunk ihdrType (png_ihdr width height) ++
                (png_write_u32_be payload.length ++ idatType ++ payload ++
                  png_write_u32_be
                    (crc32_finalize (crc32_update crc32_init (idatType ++ payload)))) ++
                png_write_chunk iendType [])) := by
  constructor
  · intro type data
    rw [png_write_chunk, crc32_update_append]
  · intro rgb565 width height pitch
    obtain ⟨zw, body, heq, hblen, hcrc⟩ := png_write_rgb565_spec rgb565 width height pitch
    refine ⟨[0x78, 0x01] ++ body ++ png_write_u32_be zw.adler, ?_⟩
    rw [heq]
    have hlen : ([0x78, 0x01] ++ body ++ png_write_u32_be zw.adler).length =
        2 + (width * 3 + 1) * height + ((width * 3 + 1) * height + 65534) / 65535 * 5 + 4 := by
      simp only [List.length_append, hblen, png_write_u32_be, List.length_cons,
        List.length_nil]
      omega
    have hcrc2 : crc32_update zw.crc (png_write_u32_be zw.adler) =
        crc32_update crc32_init
          (idatType ++ ([0x78, 0x01] ++ body ++ png_write_u32_be zw.adler)) := by
      rw [hcrc]
      simp only [crc32_update_append, List.append_assoc]
      rfl
    rw [hlen, hcrc2]
    simp only [List.append_assoc]

/-! ## Claim C9: termination of the stored-block writer -/

lemma zlib_write_data_progress :
    ∀ (fuel : Nat) (w : zlib_writer) (data : List Nat),
      data.length ≤ w.remaining →
      w.block_remaining ≤ w.remaining →
      data.length ≤ fuel →
      ∃ w' out, zlib_write_data fuel w data = some (w', out) ∧
        w'.remaining = w.remaining - data.length ∧
        w'.block_remaining ≤ w'.remaining ∧
        ∃ nblocks, out.length = data.length + 5 * nblocks := by
  intro fuel
  induction fuel with
  | zero =>
    intro w data h1 h2 h3
    have hnil : data = [] := List.eq_nil_of_length_eq_zero (Nat.le_zero.mp h3)
    subst hnil
    exact ⟨w, [], rfl, by simp, h2, 0, by simp⟩
  | succ f ih =>
    intro w data h1 h2 h3
    cases data with
    | nil => exact ⟨w, [], rfl, by simp, h2, 0, by simp⟩
    | cons d ds =>
      simp only [List.length_cons] at h1 h3
      by_cases hbr : w.block_remaining = 0
      · have hrem : ¬ w.remaining = 0 := by omega
        obtain ⟨hs1, hs2, hs3, hs4, hs5⟩ := zlib_start_block_spec w hrem
        simp only [zlib_write_data, if_pos hbr, hs1, hs3, List.length_cons]
        set chunk := min (ds.length + 1) (min w.remaining 65535) with hchunk
        obtain ⟨w', out', heq, hw1, hw2, hw3⟩ :=
          ih { remaining := w.remaining - chunk,
               block_remaining := min w.remaining 65535 - chunk,
               adler := adler32_update (zlib_start_block w).1.adler ((d :: ds).take chunk),
               crc := crc32_update (zlib_start_block w).1.crc ((d :: ds).take chunk) }
            ((d :: ds).drop chunk)
            (by simp only [List.length_drop, List.length_cons]; omega)
            (by simp only []; omega)
            (by simp only [List.length_drop, List.length_cons]; omega)
        rw [heq]
        obtain ⟨nb, hnb⟩ := hw3
        refine ⟨w', (zlib_start_block w).2 ++ (d :: ds).take chunk ++ out', rfl, ?_, hw2,
          nb + 1, ?_⟩
        · rw [hw1]; simp only [List.length_drop, List.length_cons]; omega
        · have hto : ((d :: ds).take chunk).length = chunk := by
            simp only [List.length_take, List.length_cons]; omega
          simp only [List.length_append, hs5, hto, hnb, List.length_drop,
            List.length_cons]
          omega
      · simp only [zlib_write_data, if_neg hbr, List.length_cons]
        set chunk := min (ds.length + 1) w.block_remaining with hchunk
        have hch1 : 1 ≤ chunk := by omega
        obtain ⟨w', out', heq, hw1, hw2, hw3⟩ :=
          ih { remaining := w.remaining - chunk,
               block_remaining := w.block_remaining - chunk,
               adler := adler32_update w.adler ((d :: ds).take chunk),
               crc := crc32_update w.crc ((d :: ds).take chunk) }
            ((d :: ds).drop chunk)
            (by simp only [List.length_drop, List.length_cons]; omega)
            (by simp only []; omega)
            (by simp only [List.length_drop, List.length_cons]; omega)
        rw [heq]
        obtain ⟨nb, hnb⟩ := hw3
        refine ⟨w', [] ++ (d :: ds).take chunk ++ out', rfl, ?_, hw2, nb, ?_⟩
        · rw [hw1]; simp only [List.length_drop, List.length_cons]; omega
        · have hto : ((d :: ds).take chunk).length = chunk := by
            simp only [List.length_take, List.length_cons]; omega
          simp only [List.length_append, hto, hnb, List.length_drop,
            List.length_cons, List.length_nil]
          omega

lemma zlib_write_data_stuck :
    ∀ (fuel : Nat) (w : zlib_writer) (data : List Nat),
      w.remaining = 0 → w.block_remaining = 0 → data ≠ [] →
      zlib_write_data fuel w data = none := by
  intro fuel
  induction fuel with
  | zero =>
    intro w data h1 h2 h3
    cases data with
    | nil => exact absurd rfl h3
    | cons d ds => rfl
  | succ f ih =>
    intro w data h1 h2 h3
    cases data with
    | nil => exact absurd rfl h3
    | cons d ds =>
      simp only [zlib_write_data, if_pos h2, zlib_start_block, if_pos h1,
        List.length_cons]
      rw [h2]
      simp only [Nat.min_zero, List.take_zero, List.drop_zero, Nat.sub_zero, h1]
      rw [ih { remaining := 0, block_remaining := 0,
               adler := adler32_update w.adler [],
               crc := crc32_update w.crc [] } (d :: ds) rfl rfl (by simp)]

/-- C9: the stored-block writer terminates on every call whose byte count
is at most the writer's budget -- with the invariant
`block_remaining ≤ remaining`, a call with `len ≤ remaining` writes exactly
`len` payload bytes (plus 5 per opened block header), returns, and
decreases `remaining` by `len`, re-establishing the invariant; without the
precondition, once `remaining = 0` (and no block is open) the loop opens no
block, makes no progress, and never returns for any amount of fuel. -/
theorem zlib_write_data_terminates :
    (∀ (w : zlib_writer) (data : List Nat) (fuel : Nat),
      data.length ≤ w.remaining →
      w.block_remaining ≤ w.remaining →
      data.length ≤ fuel →
      ∃ w' out, zlib_write_data fuel w data = some (w', out) ∧
        w'.remaining = w.remaining - data.length ∧
        w'.block_remaining ≤ w'.remaining ∧
        ∃ nblocks, out.length = data.length + 5 * nblocks) ∧
    (∀ (fuel : Nat) (w : zlib_writer) (data : List Nat),
      w.remaining = 0 → w.block_remaining = 0 → data ≠ [] →
      zlib_write_data fuel w data = none) :=
  ⟨fun w data fuel h1 h2 h3 => zlib_write_data_progress fuel w data h1 h2 h3,
   zlib_write_data_stuck⟩

/-- Witness for C9: a 3-byte write against a 10-byte budget returns, and a
1-byte write against an exhausted writer loops for any fuel. -/
theorem zlib_write_data_terminates_witness :
    (∃ w' out,
      zlib_write_data 3
        { remaining := 10, block_remaining := 0, adler := 1, crc := 0 }
        [1, 2, 3] = some (w', out) ∧
      w'.remaining = 10 - 3 ∧
      w'.block_remaining ≤ w'.remaining ∧
      ∃ nblocks, out.length = 3 + 5 * nblocks) ∧
    zlib_write_data 7
      { remaining := 0, block_remaining := 0, adler := 1, crc := 0 } [5] = none := by
  constructor
  · have h := zlib_write_data_terminates.1
      { remaining := 10, block_remaining := 0, adler := 1, crc := 0 }
      [1, 2, 3] 3 (by decide) (by decide) (by decide)
    simpa using h
  · exact zlib_write_data_terminates.2 7
      { remaining := 0, block_remaining := 0, adler := 1, crc := 0 } [5]
      rfl rfl (by decide)

/-- C6: for every 2-byte big-endian RGB565 pixel the converter unpacks the
5/6/5 fields of `(hi <<< 8) ||| lo` and expands them with the replicating
expansions `expand5` / `expand6`; in particular 0x0000 maps to (0,0,0),
0xFFFF to (255,255,255), and a pixel with only the red field at its maximum
(0xF800, i.e. hi = 0xF8, lo = 0) to (255,0,0). -/
theorem rgb565_unpack_expand (hi lo : Nat) (hhi : hi < 256) (hlo : lo < 256) :
    rgb565_to_rgb888 hi lo =
      (expand5 ((((hi <<< 8) ||| lo) >>> 11) &&& 0x1F),
       expand6 ((((hi <<< 8) ||| lo) >>> 5) &&& 0x3F),
       expand5 (((hi <<< 8) ||| lo) &&& 0x1F)) ∧
    rgb565_to_rgb888 0 0 = (0, 0, 0) ∧
    rgb565_to_rgb888 0xFF 0xFF = (255, 255, 255) ∧
    rgb565_to_rgb888 0xF8 0 = (255, 0, 0) := by
  refine ⟨?_, by decide, by decide, by decide⟩
  simp only [rgb565_to_rgb888, expand5, expand6,
    Nat.mod_eq_of_lt hhi, Nat.mod_eq_of_lt hlo]

/-- Witness for C6 at the red-only pixel hi = 0xF8, lo = 0. -/
theorem rgb565_unpack_expand_witness :
    rgb565_to_rgb888 0xF8 0 =
      (expand5 ((((0xF8 <<< 8) ||| 0) >>> 11) &&& 0x1F),
       expand6 ((((0xF8 <<< 8) ||| 0) >>> 5) &&& 0x3F),
       expand5 (((0xF8 <<< 8) ||| 0) &&& 0x1F)) ∧
    rgb565_to_rgb888 0xF8 0 = (255, 0, 0) :=
  ⟨(rgb565_unpack_expand 0xF8 0 (by decide) (by decide)).1, by decide⟩

/-! ## Claim C5: BLE streaming chunk computation -/

lemma ble_chunk_size_pos (mtu : Nat) (h1 : 4 ≤ mtu) (h2 : mtu ≤ 65535) :
    1 ≤ ble_chunk_size mtu := by
  simp only [ble_chunk_size]
  split <;> omega

/-- Full run of the `while (offset < size)` send loop: it returns within
`size - offset` iterations, sends `q` full chunks followed by the nonzero
remainder (if any), and the chunk payloads concatenate to exactly the byte
range it was asked to send. -/
lemma send_image_data_loop_run (chunk_size size : Nat) (data : List Nat)
    (hcs : 1 ≤ chunk_size) (hsz : size ≤ data.length) :
    ∀ (fuel offset : Nat), size - offset ≤ fuel →
      ∃ (l : List (List Nat)) (q r : Nat),
        send_image_data_loop fuel chunk_size offset size data = some l ∧
        l.map List.length =
          List.replicate q chunk_size ++ (if r = 0 then [] else [r]) ∧
        size - offset = q * chunk_size + r ∧
        r < chunk_size ∧
        l.flatten = (data.drop offset).take (size - offset) := by
  intro fuel
  induction fuel with
  | zero =>
    intro offset h
    have hge : ¬ offset < size := by omega
    have h0 : size - offset = 0 := by omega
    refine ⟨[], 0, 0, ?_, by simp, by simp [h0], hcs, by simp [h0]⟩
    simp [send_image_data_loop, hge]
  | succ f ih =>
    intro offset h
    by_cases hlt : offset < size
    · simp only [send_image_data_loop, if_pos hlt]
      set len := if size - offset > chunk_size then chunk_size else size - offset
        with hlendef
      have hlen : (1 ≤ len ∧ len ≤ chunk_size ∧ len ≤ size - offset) ∧
          (size - offset > chunk_size → len = chunk_size) ∧
          (¬ size - offset > chunk_size → len = size - offset) := by
        rw [hlendef]; split <;> (refine ⟨by omega, ?_, ?_⟩ <;> omega)
      obtain ⟨l', q', r', heq, hmap, hqr, hr, hflat⟩ := ih (offset + len) (by omega)
      rw [heq]
      have hchunklen : ((data.drop offset).take len).length = len := by
        simp only [List.length_take, List.length_drop]
        omega
      by_cases hbig : size - offset > chunk_size
      · have hlc : len = chunk_size := hlen.2.1 hbig
        refine ⟨(data.drop offset).take len :: l', q' + 1, r', rfl, ?_, ?_, hr, ?_⟩
        · rw [List.map_cons, hchunklen, hmap, hlc, List.replicate_succ,
            List.cons_append]
        · have : size - (offset + len) = q' * chunk_size + r' := hqr
          have hmul : (q' + 1) * chunk_size = q' * chunk_size + chunk_size :=
            Nat.succ_mul _ _
          omega
        · simp only [List.flatten_cons, hflat]
          have h1 : size - offset = len + (size - (offset + len)) := by omega
          rw [h1, List.take_add, List.drop_drop]
      · have hlc : len = size - offset := hlen.2.2 hbig
        have hz : size - (offset + len) = 0 := by omega
        have hl0 : l' = [] := by
          have hsum0 : q' * chunk_size + r' = 0 := by omega
          have hr0 : r' = 0 := by omega
          have hq0 : q' = 0 := by
            rcases Nat.mul_eq_zero.mp (show q' * chunk_size = 0 by omega) with h1 | h1
            · exact h1
            · omega
          rw [hq0, hr0] at hmap
          simpa using hmap
        subst hl0
        by_cases hre : size - offset = chunk_size
        · refine ⟨[(data.drop offset).take len], 1, 0, rfl, ?_, by omega, hcs, ?_⟩
          · simp [hchunklen, hlc, hre]
            omega
          · simp [hlc]
        · refine ⟨[(data.drop offset).take len], 0, size - offset, rfl, ?_,
            by omega, by omega, ?_⟩
          · have hne : ¬ size - offset = 0 := by omega
            simp [hchunklen, hlc, hne]
            omega
          · simp [hlc]
    · have h0 : size - offset = 0 := by omega
      refine ⟨[], 0, 0, ?_, by simp, by simp [h0], hcs, by simp [h0]⟩
      simp [send_image_data_loop, hlt]

/-- C5: the streaming phase computes one chunk size per job as
`min (mtu - 3, 244)` (negotiated payload ceiling minus the 3-byte ATT
overhead, capped by the 244-byte hard limit), then sends full chunks
followed by the remainder while `offset` (the bytes sent) advances to the
image size; in particular a 10,000-byte image with chunk size 244 goes out
as ceil(10000/244) = 41 chunks, the last of 240 bytes, with 10,000 bytes
sent in total. -/
theorem streaming_chunk_size_and_split :
    (∀ mtu : Nat, 3 ≤ mtu → mtu ≤ 65535 → ble_chunk_size mtu = min (mtu - 3) 244) ∧
    (∀ (mtu : Nat) (data : List Nat), 4 ≤ mtu → mtu ≤ 65535 →
      ∃ (l : List (List Nat)) (q r : Nat),
        send_image_data mtu data = some l ∧
        l.map List.length =
          List.replicate q (ble_chunk_size mtu) ++ (if r = 0 then [] else [r]) ∧
        data.length = q * ble_chunk_size mtu + r ∧
        r < ble_chunk_size mtu ∧
        l.flatten = data ∧
        (l.map List.length).sum = data.length) ∧
    (∃ l : List (List Nat),
      send_image_data 247 (List.replicate 10000 0) = some l ∧
      l.length = 41 ∧
      l.map List.length = List.replicate 40 244 ++ [240] ∧
      (l.map List.length).sum = 10000) := by
  have hgen : ∀ (mtu : Nat) (data : List Nat), 4 ≤ mtu → mtu ≤ 65535 →
      ∃ (l : List (List Nat)) (q r : Nat),
        send_image_data mtu data = some l ∧
        l.map List.length =
          List.replicate q (ble_chunk_size mtu) ++ (if r = 0 then [] else [r]) ∧
        data.length = q * ble_chunk_size mtu + r ∧
        r < ble_chunk_size mtu ∧
        l.flatten = data ∧
        (l.map List.length).sum = data.length := by
    intro mtu data h1 h2
    have hcs := ble_chunk_size_pos mtu h1 h2
    obtain ⟨l, q, r, heq, hmap, hqr, hr, hflat⟩ :=
      send_image_data_loop_run (ble_chunk_size mtu) data.length data hcs le_rfl
        data.length 0 (by omega)
    have hflat' : l.flatten = data := by
      simpa [List.take_length] using hflat
    refine ⟨l, q, r, ?_, hmap, by simpa using hqr, hr, hflat', ?_⟩
    · simp only [send_image_data]
      exact heq
    · rw [← List.length_flatten, hflat']
  refine ⟨?_, hgen, ?_⟩
  · intro mtu h1 h2
    simp only [ble_chunk_size]
    have hmod : (mtu + 65536 - 3) % 65536 = mtu - 3 := by omega
    rw [hmod]
    split <;> omega
  · obtain ⟨l, q, r, heq, hmap, hqr, hr, hflat, hsum⟩ :=
      hgen 247 (List.replicate 10000 0) (by norm_num) (by norm_num)
    have hcsv : ble_chunk_size 247 = 244 := by decide
    rw [hcsv] at hmap hqr hr
    simp only [List.length_replicate] at hqr hsum
    have hq : q = 40 := by omega
    have hrr : r = 240 := by omega
    subst hq hrr
    have hmap' : l.map List.length = List.replicate 40 244 ++ [240] := by
      simpa using hmap
    have hlen : l.length = 41 := by
      have := congrArg List.length hmap'
      simpa using this
    exact ⟨l, heq, hlen, hmap', hsum⟩

/-- Witness for C5 at the 10,000-byte, 244-chunk instance. -/
theorem streaming_chunk_size_and_split_witness :
    ble_chunk_size 247 = min (247 - 3) 244 ∧
    (∃ l : List (List Nat),
      send_image_data 247 (List.replicate 10000 0) = some l ∧
      l.length = 41 ∧
      l.map List.length = List.replicate 40 244 ++ [240] ∧
      (l.map List.length).sum = 10000) :=
  ⟨streaming_chunk_size_and_split.1 247 (by decide) (by decide),
   streaming_chunk_size_and_split.2.2⟩

/-! ## Claim C10: the wireless path streams raw RGB565 bytes -/

/-- C10: a successful BLE capture job streams the raw sensor bytes
verbatim: the metadata record is the fixed 12-byte record whose size field
(little-endian at offsets 4..7) decodes to the raw frame's byte count and
whose format tag (offsets 8..11) is always ASCII R,G,B,5, and the
image-data chunks concatenate back to exactly the captured raw bytes --
no encoded container is involved. -/
theorem ble_streams_raw_frame (s : BleState) (f : Frame) (mtu : Nat)
    (hconn : s.connActive = true) (hdn : s.dataNotify = true)
    (hm1 : 4 ≤ mtu) (hm2 : mtu ≤ 65535)
    (hsz : f.bytes.length < 4294967296) :
    (capture_work_handler s (some f) mtu).outcome = CaptureOutcome.done ∧
    (capture_work_handler s (some f) mtu).captures = 1 ∧
    (capture_work_handler s (some f) mtu).meta =
      some (send_image_metadata f.width f.height f.bytes.length) ∧
    (send_image_metadata f.width f.height f.bytes.length).drop 8 =
      [0x52, 0x47, 0x42, 0x35] ∧
    (send_image_metadata f.width f.height f.bytes.length).getD 4 0 +
        256 * (send_image_metadata f.width f.height f.bytes.length).getD 5 0 +
        65536 * (send_image_metadata f.width f.height f.bytes.length).getD 6 0 +
        16777216 * (send_image_metadata f.width f.height f.bytes.length).getD 7 0 =
      f.bytes.length ∧
    (capture_work_handler s (some f) mtu).chunks.flatten = f.bytes := by
  have hcs := ble_chunk_size_pos mtu hm1 hm2
  obtain ⟨l, q, r, heq, hmap, hqr, hr, hflat⟩ :=
    send_image_data_loop_run (ble_chunk_size mtu) f.bytes.length f.bytes hcs le_rfl
      f.bytes.length 0 (by omega)
  have heq' : send_image_data mtu f.bytes = some l := by
    simp only [send_image_data]
    exact heq
  have hrun : capture_work_handler s (some f) mtu =
      { captures := 1,
        meta := some (send_image_metadata f.width f.height f.bytes.length),
        chunks := l, outcome := .done } := by
    simp only [capture_work_handler, hconn, hdn, capture_for_ble, Bool.not_true,
      Bool.or_self, Bool.false_eq_true, if_false, heq']
  have hflat' : l.flatten = f.bytes := by
    simpa [List.take_length] using hflat
  refine ⟨by rw [hrun], by rw [hrun], by rw [hrun], rfl, ?_, by rw [hrun]; exact hflat'⟩
  simp only [send_image_metadata, List.getD_cons_succ, List.getD_cons_zero]
  simp only [Nat.shiftRight_eq_div_pow]
  omega

/-- Witness for C10 at a concrete 3-byte frame. -/
theorem ble_streams_raw_frame_witness :
    (capture_work_handler { connActive := true, dataNotify := true, metaNotify := true }
        (some { bytes := [1, 2, 3], width := 3, height := 1 }) 247).outcome =
      CaptureOutcome.done ∧
    (capture_work_handler { connActive := true, dataNotify := true, metaNotify := true }
        (some { bytes := [1, 2, 3], width := 3, height := 1 }) 247).captures = 1 ∧
    (capture_work_handler { connActive := true, dataNotify := true, metaNotify := true }
        (some { bytes := [1, 2, 3], width := 3, height := 1 }) 247).meta =
      some (send_image_metadata 3 1 3) ∧
    (send_image_metadata 3 1 3).drop 8 = [0x52, 0x47, 0x42, 0x35] ∧
    (send_image_metadata 3 1 3).getD 4 0 + 256 * (send_image_metadata 3 1 3).getD 5 0 +
        65536 * (send_image_metadata 3 1 3).getD 6 0 +
        16777216 * (send_image_metadata 3 1 3).getD 7 0 = 3 ∧
    (capture_work_handler { connActive := true, dataNotify := true, metaNotify := true }
        (some { bytes := [1, 2, 3], width := 3, height := 1 }) 247).chunks.flatten =
      [1, 2, 3] :=
  ble_streams_raw_frame
    { connActive := true, dataNotify := true, metaNotify := true }
    { bytes := [1, 2, 3], width := 3, height := 1 } 247
    rfl rfl (by decide) (by decide) (by decide)

/-! ## Claim C2: gating of the metadata announcement -/

/-- C2 counterexample: with an active connection and image-data
notifications enabled but metadata notifications NOT enabled, the handler
still emits the metadata announcement -- so the announcement is not gated
on the metadata subscription, refuting the claim as stated. -/
theorem metadata_gate_counterexample :
    BleState.metaNotify
        { connActive := true, dataNotify := true, metaNotify := false } = false ∧
    (capture_work_handler
        { connActive := true, dataNotify := true, metaNotify := false }
        (some { bytes := [0, 0], width := 1, height := 1 }) 247).meta =
      some (send_image_metadata 1 1 2) ∧
    (capture_work_handler
        { connActive := true, dataNotify := true, metaNotify := false }
        (some { bytes := [0, 0], width := 1, height := 1 }) 247).outcome =
      CaptureOutcome.done := by
  refine ⟨rfl, ?_, ?_⟩ <;> decide

/-- C2 (amended): the metadata announcement is sent only when there is an
active connection with IMAGE-DATA notifications enabled (the handler's
guard reads `image_data_notify_enabled`, not the metadata CCC flag); if the
peer has no active session or has not subscribed to the data channel, the
handler exits on its no-subscriber path without capturing any frame, so in
particular the frame is not consumed a second time. -/
theorem metadata_announcement_guard (s : BleState) (captureResult : Option Frame)
    (mtu : Nat) :
    ((capture_work_handler s captureResult mtu).meta ≠ none →
      s.connActive = true ∧ s.dataNotify = true) ∧
    (¬ (s.connActive = true ∧ s.dataNotify = true) →
      capture_work_handler s captureResult mtu =
        { captures := 0, meta := none, chunks := [],
          outcome := CaptureOutcome.noSubscriber }) := by
  obtain ⟨ca, dn, mn⟩ := s
  cases ca <;> cases dn
  · exact ⟨fun h => absurd rfl h, fun _ => rfl⟩
  · exact ⟨fun h => absurd rfl h, fun _ => rfl⟩
  · exact ⟨fun h => absurd rfl h, fun _ => rfl⟩
  · exact ⟨fun _ => ⟨rfl, rfl⟩, fun h => absurd ⟨rfl, rfl⟩ h⟩

/-- Witness for C2 (amended): a disconnected peer makes the handler exit on
the no-subscriber path with zero captures. -/
theorem metadata_announcement_guard_witness :
    capture_work_handler { connActive := false, dataNotify := true, metaNotify := true }
        (some { bytes := [0, 0], width := 1, height := 1 }) 247 =
      { captures := 0, meta := none, chunks := [],
        outcome := CaptureOutcome.noSubscriber } :=
  (metadata_announcement_guard
      { connActive := false, dataNotify := true, metaNotify := true }
      (some { bytes := [0, 0], width := 1, height := 1 }) 247).2 (by decide)

/-! ## Claim C7: YUYV conversion per luma sample -/

lemma yuyv_pairs_per_sample (row : List Nat) (width : Nat) :
    ∀ (n k x : Nat), x = 2 * k → width - x = n →
      png_write_yuyv_pairs row width x =
        (List.range' x (width - x)).flatMap (fun i =>
          yuv_to_rgb (byteAt row (2 * i)) (byteAt row (4 * (i / 2) + 1))
            (byteAt row (4 * (i / 2) + 3))) := by
  intro n
  induction n using Nat.strong_induction_on with
  | _ n ih =>
    intro k x hx hn
    by_cases h : x < width
    · rw [png_write_yuyv_pairs, if_pos h]
      by_cases hb : x + 1 < width
      · have h2 : width - x = (width - x - 2) + 1 + 1 := by omega
        rw [h2, List.range'_succ, List.flatMap_cons, List.range'_succ,
          List.flatMap_cons]
        simp only [if_pos hb]
        rw [ih (width - (x + 2)) (by omega) (k + 1) (x + 2) (by omega) rfl]
        have e1 : 2 * x = x * 2 := by ring
        have e2 : 4 * (x / 2) + 1 = x * 2 + 1 := by omega
        have e3 : 4 * (x / 2) + 3 = x * 2 + 3 := by omega
        have e4 : 2 * (x + 1) = x * 2 + 2 := by ring
        have e5 : 4 * ((x + 1) / 2) + 1 = x * 2 + 1 := by omega
        have e6 : 4 * ((x + 1) / 2) + 3 = x * 2 + 3 := by omega
        have e7 : x + 1 + 1 = x + 2 := by omega
        have e8 : width - x - 2 = width - (x + 2) := by omega
        rw [e1, e2, e3, e4, e5, e6, e7, e8, List.append_assoc]
      · have h1 : width - x = 0 + 1 := by omega
        rw [h1, List.range'_succ, List.flatMap_cons, List.range'_zero,
          List.flatMap_nil]
        simp only [if_neg hb]
        rw [png_write_yuyv_pairs, if_neg (by omega : ¬ x + 2 < width)]
        have e1 : 2 * x = x * 2 := by ring
        have e2 : 4 * (x / 2) + 1 = x * 2 + 1 := by omega
        have e3 : 4 * (x / 2) + 3 = x * 2 + 3 := by omega
        rw [e1, e2, e3]
        simp
    · rw [png_write_yuyv_pairs, if_neg h]
      have h0 : width - x = 0 := by omega
      rw [h0, List.range'_zero, List.flatMap_nil]

/-- C7: the YUYV row loop converts each 4-byte group (Y0,U,Y1,V) once per
luma sample, reusing the group's shared chroma pair -- the emitted row
equals the filter byte followed by, for every luma sample `i` of the row,
the spec's BT.601-style clamped transform applied to luma byte `2*i` and
the chroma pair of group `i / 2`; for odd `width` the `List.range width`
bound emits only the first pixel of the trailing incomplete pair.  The
transform used is exactly the spec's formula list, and black input
(Y=16, U=128, V=128) maps to (0,0,0). -/
theorem yuyv_converts_per_luma_sample (row : List Nat) (width : Nat) :
    png_write_yuyv_row row width = 0 :: yuyv_row_spec row width ∧
    (∀ y u v, yuv_to_rgb y u v = yuv_to_rgb_spec y u v) ∧
    yuv_to_rgb 16 128 128 = [0, 0, 0] := by
  refine ⟨?_, fun y u v => rfl, by decide⟩
  simp only [png_write_yuyv_row, yuyv_row_spec]
  rw [yuyv_pairs_per_sample row width (width - 0) 0 0 rfl rfl]
  rw [Nat.sub_zero, ← List.range_eq_range']
  exact congrArg _ (congrArg (List.flatMap (List.range width))
    (funext fun i => rfl))

/-! ## Claim C8: flat (BMP) container layout -/

lemma take_drop_append (l l' : List Nat) (k n : Nat) (h : k + n ≤ l.length) :
    ((l ++ l').drop k).take n = (l.drop k).take n := by
  rw [List.drop_append_of_le_length (by omega),
    List.take_append_of_le_length (by simp only [List.length_drop]; omega)]

lemma flatMap_triple_seg (f : Nat → List Nat) (hf : ∀ a, (f a).length = 3) :
    ∀ (x w s : Nat), x < w →
      (((List.range' s w).flatMap f).drop (3 * x)).take 3 = f (s + x) := by
  intro x
  induction x with
  | zero =>
    intro w s hw
    have h1 : w = (w - 1) + 1 := by omega
    rw [h1, List.range'_succ, List.flatMap_cons, Nat.mul_zero, List.drop_zero,
      show (3 : Nat) = (f s).length from (hf s).symm, List.take_left, Nat.add_zero]
  | succ x ih =>
    intro w s hw
    have h1 : w = (w - 1) + 1 := by omega
    rw [h1, List.range'_succ, List.flatMap_cons,
      show 3 * (x + 1) = (f s).length + 3 * x by rw [hf s]; ring,
      List.drop_append, ih (w - 1) (s + 1) (by omega)]
    congr 1
    omega

lemma bmp_row_length (src : List Nat) (width row_size : Nat)
    (h : width * 3 ≤ row_size) :
    (bmp_row src width row_size).length = row_size := by
  simp only [bmp_row, List.length_append, List.length_replicate]
  rw [length_flatMap_const
    (fun x =>
      let p := rgb565_to_rgb888 (src.getD (2 * x) 0) (src.getD (2 * x + 1) 0)
      [p.2.2, p.2.1, p.1]) 3 (fun x => rfl)]
  simp only [List.length_range]
  omega

/-- C8: the flat-container encoder writes the 54-byte little-endian header
with the total file size at offset 2, pixel-data offset 54 at offset 10,
width at 18, height at 22, planes = 1 at 26, bits-per-pixel = 24 at 28 and
the pixel-data size at 34 (each multi-byte field in little-endian order,
`u32le` fields decoding back to the value mod 2^32), followed by the
scanlines bottom-to-top, each row `row_size = ((width*3+3)/4)*4` bytes --
a multiple of 4, zero-padded past the pixels -- and each pixel stored as
the B,G,R expansions of its RGB565 source pixel. -/
theorem bmp_flat_layout (rgb565 : List Nat) (width height pitch : Nat) :
    (bmp_write_rgb565 rgb565 width height pitch).length =
      54 + (width * 3 + 3) / 4 * 4 * height ∧
    (bmp_write_rgb565 rgb565 width height pitch).take 2 = [0x42, 0x4D] ∧
    ((bmp_write_rgb565 rgb565 width height pitch).drop 2).take 4 =
      u32le (54 + (width * 3 + 3) / 4 * 4 * height) ∧
    ((bmp_write_rgb565 rgb565 width height pitch).drop 10).take 4 = [54, 0, 0, 0] ∧
    ((bmp_write_rgb565 rgb565 width height pitch).drop 18).take 4 = u32le width ∧
    ((bmp_write_rgb565 rgb565 width height pitch).drop 22).take 4 = u32le height ∧
    ((bmp_write_rgb565 rgb565 width height pitch).drop 26).take 2 = [1, 0] ∧
    ((bmp_write_rgb565 rgb565 width height pitch).drop 28).take 2 = [24, 0] ∧
    ((bmp_write_rgb565 rgb565 width height pitch).drop 34).take 4 =
      u32le ((width * 3 + 3) / 4 * 4 * height) ∧
    (bmp_write_rgb565 rgb565 width height pitch).drop 54 =
      (List.range height).reverse.flatMap
        (fun y => bmp_row (rgb565.drop (y * pitch)) width ((width * 3 + 3) / 4 * 4)) ∧
    (∀ v : Nat, (u32le v).getD 0 0 + 256 * (u32le v).getD 1 0 +
        65536 * (u32le v).getD 2 0 + 16777216 * (u32le v).getD 3 0 =
      v % 4294967296) ∧
    (∀ src : List Nat, (bmp_row src width ((width * 3 + 3) / 4 * 4)).length =
        (width * 3 + 3) / 4 * 4) ∧
    ((width * 3 + 3) / 4 * 4) % 4 = 0 ∧
    (∀ (src : List Nat) (x : Nat), x < width →
      ((bmp_row src width ((width * 3 + 3) / 4 * 4)).drop (3 * x)).take 3 =
        [(rgb565_to_rgb888 (src.getD (2 * x) 0) (src.getD (2 * x + 1) 0)).2.2,
         (rgb565_to_rgb888 (src.getD (2 * x) 0) (src.getD (2 * x + 1) 0)).2.1,
         (rgb565_to_rgb888 (src.getD (2 * x) 0) (src.getD (2 * x + 1) 0)).1]) := by
  have hout : bmp_write_rgb565 rgb565 width height pitch =
      bmp_header width height ++
        (List.range height).reverse.flatMap
          (fun y => bmp_row (rgb565.drop (y * pitch)) width ((width * 3 + 3) / 4 * 4)) :=
    rfl
  have hhlen : (bmp_header width height).length = 54 := by
    simp [bmp_header, u32le]
  have hrow : ∀ src : List Nat,
      (bmp_row src width ((width * 3 + 3) / 4 * 4)).length =
        (width * 3 + 3) / 4 * 4 :=
    fun src => bmp_row_length src width _ (by omega)
  refine ⟨?_, ?_, ?_, ?_, ?_, ?_, ?_, ?_, ?_, ?_, ?_, hrow, by omega, ?_⟩
  · rw [hout, List.length_append, hhlen,
      length_flatMap_const
        (fun y => bmp_row (rgb565.drop (y * pitch)) width ((width * 3 + 3) / 4 * 4))
        ((width * 3 + 3) / 4 * 4) (fun y => hrow _)]
    simp [Nat.mul_comm]
  · rw [hout, List.take_append_of_le_length (by omega)]
    rfl
  · rw [hout, take_drop_append _ _ 2 4 (by omega)]
    rfl
  · rw [hout, take_drop_append _ _ 10 4 (by omega)]
    rfl
  · rw [hout, take_drop_append _ _ 18 4 (by omega)]
    rfl
  · rw [hout, take_drop_append _ _ 22 4 (by omega)]
    rfl
  · rw [hout, take_drop_append _ _ 26 2 (by omega)]
    rfl
  · rw [hout, take_drop_append _ _ 28 2 (by omega)]
    rfl
  · rw [hout, take_drop_append _ _ 34 4 (by omega)]
    rfl
  · rw [hout, show (54 : Nat) = (bmp_header width height).length + 0 by omega,
      List.drop_append, List.drop_zero]
  · intro v
    simp only [u32le, List.getD_cons_succ, List.getD_cons_zero,
      Nat.shiftRight_eq_div_pow]
    omega
  · intro src x hx
    have hf : ∀ a : Nat, ((fun x =>
        let p := rgb565_to_rgb888 (src.getD (2 * x) 0) (src.getD (2 * x + 1) 0)
        [p.2.2, p.2.1, p.1]) a).length = 3 := fun a => rfl
    have hpix : ((List.range width).flatMap (fun x =>
        let p := rgb565_to_rgb888 (src.getD (2 * x) 0) (src.getD (2 * x + 1) 0)
        [p.2.2, p.2.1, p.1])).length = 3 * width := by
      rw [length_flatMap_const _ 3 hf]
      simp [List.length_range]
    rw [bmp_row, take_drop_append _ _ (3 * x) 3 (by omega), List.range_eq_range']
    have h3 := flatMap_triple_seg (fun x =>
        let p := rgb565_to_rgb888 (src.getD (2 * x) 0) (src.getD (2 * x + 1) 0)
        [p.2.2, p.2.1, p.1]) hf x width 0 hx
    rw [Nat.zero_add] at h3
    rw [h3]

/-- Witness for C8 at a 2-by-1 all-ones image. -/
theorem bmp_flat_layout_witness :
    (bmp_write_rgb565 (List.replicate 4 255) 2 1 4).take 2 = [0x42, 0x4D] ∧
    ((bmp_write_rgb565 (List.replicate 4 255) 2 1 4).drop 18).take 4 = u32le 2 ∧
    ((bmp_row (List.replicate 4 255) 2 ((2 * 3 + 3) / 4 * 4)).drop (3 * 1)).take 3 =
      [(rgb565_to_rgb888 ((List.replicate 4 255).getD (2 * 1) 0)
          ((List.replicate 4 255).getD (2 * 1 + 1) 0)).2.2,
       (rgb565_to_rgb888 ((List.replicate 4 255).getD (2 * 1) 0)
          ((List.replicate 4 255).getD (2 * 1 + 1) 0)).2.1,
       (rgb565_to_rgb888 ((List.replicate 4 255).getD (2 * 1) 0)
          ((List.replicate 4 255).getD (2 * 1 + 1) 0)).1] ∧
    (bmp_write_rgb565 (List.replicate 4 255) 2 1 4).length = 54 + 8 := by
  obtain ⟨h1, h2, h3, h4, h5, h6, h7, h8, h9, h10, h11, h12, h13, h14⟩ :=
    bmp_flat_layout (List.replicate 4 255) 2 1 4
  exact ⟨h2, h5, h14 (List.replicate 4 255) 1 (by decide), by decide⟩
